import Mathlib

/-!
Verification development for the GeoJSON worker source of this repository
(`src/source/geojson_worker_source.js`).  The JavaScript code is shallowly
embedded: JS objects used as string-keyed dictionaries become association
lists, JS callbacks become returned values, the supercluster / geojson-vt
libraries are modelled through their documented query interface, and the
floating-point arithmetic of the travelling-salesman heuristic is kept
abstract (a structure of operations on an arbitrary carrier type), since
the heuristic's control flow consumes numbers only through comparisons.
-/

namespace GeoWorker

/-- Lookup in a JS-object-as-dictionary, modelled as an association list
with unique keys (first match). -/
def assocGet {κ β : Type} [DecidableEq κ] (l : List (κ × β)) (k : κ) : Option β :=
  match l with
  | [] => none
  | p :: rest => if p.1 = k then some p.2 else assocGet rest k

/-- Property assignment `obj[k] = v` on a JS object: overwrite the existing
entry for `k`, or append a new one. -/
def assocSet {κ β : Type} [DecidableEq κ] (l : List (κ × β)) (k : κ) (v : β) : List (κ × β) :=
  match l with
  | [] => [(k, v)]
  | p :: rest => if p.1 = k then (k, v) :: rest else p :: assocSet rest k v

/-- Property deletion `delete obj[k]` on a JS object. -/
def assocErase {κ β : Type} [DecidableEq κ] (l : List (κ × β)) (k : κ) : List (κ × β) :=
  match l with
  | [] => []
  | p :: rest => if p.1 = k then rest else p :: assocErase rest k

/-- Error object carried through a node-style callback. -/
structure JsError where
  message : String
deriving DecidableEq

/-- Request parameters for a remote fetch (only the identity matters here). -/
structure RequestParams where
  url : String
deriving DecidableEq

/- ------------------------------------------------------------------ -/
/- Geometry model and ingest-time normalization.                       -/
/- ------------------------------------------------------------------ -/

/-- A polygon ring: a closed sequence of 2-D coordinates. -/
abbrev Ring : Type := List (ℚ × ℚ)

/-- Cross term of the shoelace formula for two consecutive ring vertices. -/
def cross2 (p q : ℚ × ℚ) : ℚ := p.1 * q.2 - q.1 * p.2

/-- Signed (doubled) area of a ring by the shoelace formula over consecutive
vertex pairs; for the closed rings of GeoJSON (first vertex repeated last)
this agrees with the cyclic sum. -/
def shoelace : Ring → ℚ
  | p :: q :: rest => cross2 p q + shoelace (q :: rest)
  | _ => 0

/-- Modelled from the spec: the geometry normalizer (`geojson-rewind`, a
dependency whose code is not part of this repository) reverses a polygon
ring exactly when the sign of its signed area contradicts the orientation
required for its position (outer ring or hole), and leaves it unchanged
otherwise. `clockwise = true` asks for non-positive signed area. -/
def rewindRing (clockwise : Bool) (r : Ring) : Ring :=
  if (if clockwise then shoelace r ≤ 0 else 0 ≤ shoelace r) then r else r.reverse

/-- Modelled from the spec: a polygon's first ring is wound one way and each
hole the opposite way. -/
def rewindRings (clockwise : Bool) : List Ring → List Ring
  | [] => []
  | outer :: holes => rewindRing clockwise outer :: holes.map (rewindRing (!clockwise))

/-- GeoJSON geometry, restricted to the shapes the worker ingests. -/
inductive Geometry : Type
  | point (c : ℚ × ℚ)
  | lineString (cs : List (ℚ × ℚ))
  | polygon (rings : List Ring)
  | multiPolygon (polys : List (List Ring))
deriving DecidableEq

/-- Modelled from the spec: normalization rewinds polygon rings and passes
non-polygon geometries through unchanged. -/
def normalizeGeometry (clockwise : Bool) : Geometry → Geometry
  | .point c => .point c
  | .lineString cs => .lineString cs
  | .polygon rings => .polygon (rewindRings clockwise rings)
  | .multiPolygon polys => .multiPolygon (polys.map (rewindRings clockwise))

/-- A feature of the ingested document. -/
structure GFeature where
  fid : ℕ
  geometry : Geometry
deriving DecidableEq

/-- The parsed GeoJSON document handed to `loadData`. -/
structure GeoJSONDoc where
  features : List GFeature
deriving DecidableEq

/-- Modelled from the spec: `rewind(data, true)` applied at ingest —
normalize every feature's geometry, outer rings clockwise. -/
def normalizeDoc (d : GeoJSONDoc) : GeoJSONDoc :=
  ⟨d.features.map (fun f => ⟨f.fid, normalizeGeometry true f.geometry⟩)⟩

/- ------------------------------------------------------------------ -/
/- Spatial indexes and the worker state.                               -/
/- ------------------------------------------------------------------ -/

/-- A single original point feature as surfaced by the cluster index:
its identifier `i` and its coordinates. -/
structure Leaf where
  i : ℕ
  coordinates : ℚ × ℚ
deriving DecidableEq

/-- An element returned by `supercluster.getClusters`: either a singleton
leaf (`properties.cluster` is not `true`) or an aggregate cluster carrying
`properties.cluster_id`. -/
inductive ClusterEntry : Type
  | leaf (f : Leaf)
  | agg (cluster_id : ℕ)
deriving DecidableEq

/-- Bounding box `[minX, minY, maxX, maxY]`. -/
structure Bbox where
  b0 : ℚ
  b1 : ℚ
  b2 : ℚ
  b3 : ℚ
deriving DecidableEq

/-- The supercluster index, modelled through its query interface: the
clusters visible in a bounding box at a zoom, and the full leaf list of an
aggregate cluster at a zoom (`getLeaves` truncates it to its limit
argument, see `scGetLeaves`). -/
structure SuperclusterIndex where
  clustersIn : Bbox → ℤ → List ClusterEntry
  leavesAll : ℕ → ℤ → List Leaf

/-- A value of `this._geoJSONIndexes[source]`: a supercluster index (which
has a `getClusters` method) or a geojson-vt tile index (which does not). -/
inductive GeoJSONIndex : Type
  | clusterIdx (sc : SuperclusterIndex)
  | tileIdx

/-- The mutable state of the worker that the claims are about: the registry
`this._geoJSONIndexes` and the per-source loaded-tile marker sets
`this.loaded` (uid markers). -/
structure WorkerState where
  geoJSONIndexes : List (String × GeoJSONIndex)
  loaded : List (String × List ℕ)

/-- A JS value delivered by the loadGeoJSON callback, classified the way
`loadData` inspects it: falsy, a truthy non-object, or a GeoJSON object. -/
inductive JsValue : Type
  | falsy
  | primitive
  | geo (d : GeoJSONDoc)
deriving DecidableEq

/-- Outcome of `GeoJSONWorkerSource#loadGeoJSON` (`geojson_worker_source.js`
lines 296–312): delegate to `ajax.getJSON`, deliver a parsed value, or
deliver the invalid-input error. -/
inductive LoadGeoJSONResult : Type
  | fetch (r : RequestParams)
  | parsed (v : JsValue)
  | invalid (e : JsError)
deriving DecidableEq

/-- The error constructed for unusable ingest input. -/
def invalidGeoJSONError : JsError := ⟨"Input data is not a valid GeoJSON object."⟩

/-- Embedding of `loadGeoJSON(params, callback)`: `params.request` is tried
first; otherwise a string `params.data` is parsed (`parseJSON` models
`JSON.parse`, `none` meaning it throws); otherwise the error is delivered. -/
def loadGeoJSON (request : Option RequestParams) (data : Option String)
    (parseJSON : String → Option JsValue) : LoadGeoJSONResult :=
  match request with
  | some r => .fetch r
  | none =>
    match data with
    | some s =>
      match parseJSON s with
      | some v => .parsed v
      | none => .invalid invalidGeoJSONError
    | none => .invalid invalidGeoJSONError

/-- Completion value of `loadData`: `callback(err)` where `err` may be the
JS `null`/`undefined` (when the delivered data was falsy without an error),
or the success call `callback(null)`. -/
inductive LoadDataResult : Type
  | err (e : Option JsError)
  | ok
deriving DecidableEq

/-- Embedding of `loadData(params, callback)` (lines 119–140), resumed at
the point where `loadGeoJSON` has delivered `(err, data)`.  The index
builders (`supercluster(...).load` / `geojsonvt(...)`) are parameters that
may throw, modelled with `Except`.  On successful build the new index is
installed and the loaded-tile marker set for the source is cleared. -/
def loadData (st : WorkerState) (source : String) (cluster : Bool)
    (buildCluster : GeoJSONDoc → Except JsError GeoJSONIndex)
    (buildTile : GeoJSONDoc → Except JsError GeoJSONIndex)
    (err : Option JsError) (data : JsValue) : WorkerState × LoadDataResult :=
  match err with
  | some e => (st, .err (some e))
  | none =>
    match data with
    | .falsy => (st, .err none)
    | .primitive => (st, .err (some invalidGeoJSONError))
    | .geo d =>
      match (if cluster then buildCluster else buildTile) (normalizeDoc d) with
      | .error e => (st, .err (some e))
      | .ok idx =>
        (⟨assocSet st.geoJSONIndexes source idx, assocSet st.loaded source []⟩, .ok)

/-- Embedding of `removeSource` (lines 314–319): delete the registry entry
for the source; the loaded-tile markers are not touched. -/
def removeSource (st : WorkerState) (source : String) : WorkerState :=
  ⟨assocErase st.geoJSONIndexes source, st.loaded⟩

/-- Modelled from the spec: the superclass `VectorTileWorkerSource.loadTile`
(not part of the excerpt) records a (source, uid) marker in `this.loaded`
on the first successful tile fetch. -/
def markTileLoaded (st : WorkerState) (source : String) (uid : ℕ) : WorkerState :=
  ⟨st.geoJSONIndexes,
   assocSet st.loaded source (uid :: ((assocGet st.loaded source).getD []))⟩

/-- The branch decision of `reloadTile` (lines 274–283): `true` when
`this.loaded[params.source]` exists and has a marker for `uid`, in which
case the incremental `super.reloadTile` path is taken; `false` for the
fresh `loadTile` path. -/
def reloadTileTakesIncremental (st : WorkerState) (source : String) (uid : ℕ) : Bool :=
  match assocGet st.loaded source with
  | some l => l.contains uid
  | none => false

/- ------------------------------------------------------------------ -/
/- getPointListData: budget, groups, distance sort.                    -/
/- ------------------------------------------------------------------ -/

/-- Parameters of `getPointListData` (lines 34–42 and 142–161). -/
structure PlanParams where
  bounds : Bbox
  zoom : ℚ
  maxCount : Option ℕ
  source : String
  minzoom : ℤ
  maxzoom : ℤ
  center : Option (ℚ × ℚ)
  travellingSalesmanApprox : Bool

/-- Embedding of `getBboxArrCenter` (lines 260–262). -/
def getBboxArrCenter (b : Bbox) : ℚ × ℚ := ((b.b0 + b.b2) / 2, (b.b1 + b.b3) / 2)

/-- `params.maxCount || Infinity` (line 159): an absent or falsy (zero)
`maxCount` becomes the infinite budget, modelled as `none`. -/
def jsBudget : Option ℕ → Option ℕ
  | none => none
  | some 0 => none
  | some (k + 1) => some (k + 1)

/-- The loop-break test `apartmentsCnt >= maxCount` (line 200); always
false against the infinite budget. -/
def budgetReached (cnt : ℕ) : Option ℕ → Bool
  | none => false
  | some k => k ≤ cnt

/-- `supercluster.getLeaves(clusterId, zoom, limit)` of the external
supercluster library, modelled by its documented contract: it returns at
most `limit` of the cluster's leaves (all of them for the infinite limit). -/
def scGetLeaves (sc : SuperclusterIndex) (cid : ℕ) (zoom : ℤ) : Option ℕ → List Leaf
  | none => sc.leavesAll cid zoom
  | some k => (sc.leavesAll cid zoom).take k

/-- The `clusterFeatures` computed for one entry of the `getClusters`
result (lines 173–187): the entry itself for a singleton leaf, or
`getLeaves(cluster_id, zoom, maxCount)` for an aggregate. -/
def clusterFeaturesOf (sc : SuperclusterIndex) (zoom : ℤ) (budget : Option ℕ) :
    ClusterEntry → List Leaf
  | .leaf f => [f]
  | .agg cid => scGetLeaves sc cid zoom budget

/-- The `clusterId` recorded for one entry (lines 179 and 181). -/
def clusterIdOf : ClusterEntry → ℕ
  | .leaf f => f.i
  | .agg cid => cid

/-- One element of `allClustersData` (lines 189–197): cluster identifier,
representative coordinate of the first member, the member identifiers, and
the distance field that `distanceSort` later fills in. -/
structure GroupData where
  clusterId : ℕ
  coordinates : ℚ × ℚ
  apartmentIds : List ℕ
  distance : ℚ
deriving DecidableEq

/-- The group built from one cluster entry.  JS reads
`clusterFeatures[0].geometry.coordinates`; an aggregate whose leaf list
came back empty would fault there in JS — the default is never reached for
a well-formed index, whose aggregates have at least one leaf. -/
def mkGroupOf (sc : SuperclusterIndex) (zoom : ℤ) (budget : Option ℕ)
    (c : ClusterEntry) : GroupData :=
  let feats := clusterFeaturesOf sc zoom budget c
  ⟨clusterIdOf c, (feats.headD ⟨0, (0, 0)⟩).coordinates, feats.map Leaf.i, 0⟩

/-- The cluster loop of `getPointListData` (lines 173–203): build a group
per entry, accumulate the running identifier count, and break out of the
loop — after pushing the current group — once the count reaches the
budget. -/
def collectGroups (sc : SuperclusterIndex) (zoom : ℤ) (budget : Option ℕ) :
    List ClusterEntry → ℕ → List GroupData
  | [], _ => []
  | c :: rest, cnt =>
    let g := mkGroupOf sc zoom budget c
    let cnt' := cnt + (clusterFeaturesOf sc zoom budget c).length
    if budgetReached cnt' budget then [g]
    else g :: collectGroups sc zoom budget rest cnt'

/-- Embedding of `calculateDistarnce` (lines 255–257): squared planar
Euclidean distance (the source function's misspelt name is kept). -/
def calculateDistarnce (a b : ℚ × ℚ) : ℚ := (a.1 - b.1) ^ 2 + (a.2 - b.2) ^ 2

/-- Write the `distance` field of a group (lines 244–249). -/
def setGroupDistance (center : ℚ × ℚ) (g : GroupData) : GroupData :=
  ⟨g.clusterId, g.coordinates, g.apartmentIds, calculateDistarnce center g.coordinates⟩

/-- The comparator `(a, b) => a.distance - b.distance` (lines 250–252) as
an ascending-order test. -/
def groupLe (a b : GroupData) : Bool := a.distance ≤ b.distance

/-- Stable insertion into a sorted list: the new element goes after every
element that compares below-or-equal. -/
def insertSorted {β : Type} (le : β → β → Bool) (x : β) : List β → List β
  | [] => [x]
  | y :: ys => if le y x then y :: insertSorted le x ys else x :: y :: ys

/-- A stable comparison sort.  `Array.prototype.sort` with a consistent
comparator is specified only up to producing a stable sorted order, so any
stable sort is a faithful model of line 250. -/
def sortBy {β : Type} (le : β → β → Bool) : List β → List β
  | [] => []
  | x :: xs => insertSorted le x (sortBy le xs)

/-- Embedding of `distanceSort` (lines 239–253): fill in each group's
distance from the center, then sort ascending by it (in place in JS;
functionally here). -/
def distanceSort (gs : List GroupData) (center : ℚ × ℚ) : List GroupData :=
  if gs.length = 0 then gs else sortBy groupLe (gs.map (setGroupDistance center))

/-- The effective zoom `Math.max(Math.min(Math.floor(zoom), maxzoom), minzoom)`
(line 158). -/
def effectiveZoom (p : PlanParams) : ℤ := max (min ⌊p.zoom⌋ p.maxzoom) p.minzoom

/-- The effective center `params.center || this.getBboxArrCenter(bounds)`
(line 161). -/
def effectiveCenter (p : PlanParams) : ℚ × ℚ := p.center.getD (getBboxArrCenter p.bounds)

/-- The group list of one `getPointListData` query, after the cluster loop
and `distanceSort` (lines 163–205). -/
def planGroups (sc : SuperclusterIndex) (p : PlanParams) : List GroupData :=
  distanceSort
    (collectGroups sc (effectiveZoom p) (jsBudget p.maxCount)
      (sc.clustersIn p.bounds (effectiveZoom p)) 0)
    (effectiveCenter p)

/- ------------------------------------------------------------------ -/
/- TravellingSalesmanApproximation (lines 323–508).                    -/
/- ------------------------------------------------------------------ -/

/-- The number operations the heuristic performs on JS floating-point
numbers.  The carrier `α` is abstract: the tour's control flow consumes
numbers only through the strict comparison `ltb` (JS `<`, which is false
whenever an operand is NaN), so every theorem proved for all instances
covers the IEEE-double instantiation the JS engine uses. -/
structure JsNumOps (α : Type) where
  ofRat : ℚ → α
  add : α → α → α
  sub : α → α → α
  mul : α → α → α
  div : α → α → α
  sqrtFn : α → α
  ltb : α → α → Bool

/-- The exact rational instantiation of the operations (with `sqrtFn`
interpreting `Math.sqrt` as an arbitrary function, which the control-flow
theorems never constrain). -/
def ratOps : JsNumOps ℚ :=
  ⟨id, (· + ·), (· - ·), (· * ·), (· / ·), id, fun a b => decide (a < b)⟩

/-- An integer instantiation of the operations (numerator conversion,
exact integer arithmetic, `sqrtFn` as the identity), convenient for
concrete witnesses. -/
def intOps : JsNumOps ℤ :=
  ⟨Rat.num, (· + ·), (· - ·), (· * ·), (· / ·), id, fun a b => decide (a < b)⟩

/-- The `bounds` object of the approximation (lines 328–333), with `null`
fields as `none`. -/
structure TsaBounds (α : Type) where
  minX : Option α
  minY : Option α
  maxX : Option α
  maxY : Option α

/-- One step of the bounds loop of `normalizePoints` (lines 399–417).
JS compares `x > null` by coercing `null` to zero, but the `=== null`
disjunct makes the update unconditional on the first point, so matching on
`none` is equivalent. -/
def tsaBoundsStep {α : Type} (ops : JsNumOps α) (b : TsaBounds α) (pt : α × α) :
    TsaBounds α :=
  let maxX := match b.maxX with
    | none => some pt.1
    | some m => if ops.ltb m pt.1 then some pt.1 else some m
  let minX := match b.minX with
    | none => some pt.1
    | some m => if ops.ltb pt.1 m then some pt.1 else some m
  let maxY := match b.maxY with
    | none => some pt.2
    | some m => if ops.ltb m pt.2 then some pt.2 else some m
  let minY := match b.minY with
    | none => some pt.2
    | some m => if ops.ltb pt.2 m then some pt.2 else some m
  ⟨minX, minY, maxX, maxY⟩

/-- The bounds of the input points (first loop of `normalizePoints`). -/
def tsaBoundsOf {α : Type} (ops : JsNumOps α) (pts : List (α × α)) : TsaBounds α :=
  pts.foldl (tsaBoundsStep ops) ⟨none, none, none, none⟩

/-- Read a bounds field the way JS arithmetic does: `null` coerces to 0.
For a non-empty point list every field is populated and the default is
never used. -/
def jsNum {α : Type} (ops : JsNumOps α) (o : Option α) : α := o.getD (ops.ofRat 0)

/-- Min-max rescaling of one coordinate pair (second loop of
`normalizePoints`, lines 420–431): `(v - min) * extent / (max - min)`. -/
def tsaRescale {α : Type} (ops : JsNumOps α) (b : TsaBounds α) (width height : α)
    (pt : α × α) : α × α :=
  (ops.div (ops.mul (ops.sub pt.1 (jsNum ops b.minX)) width)
     (ops.sub (jsNum ops b.maxX) (jsNum ops b.minX)),
   ops.div (ops.mul (ops.sub pt.2 (jsNum ops b.minY)) height)
     (ops.sub (jsNum ops b.maxY) (jsNum ops b.minY)))

/-- The approximation object after its constructor ran (lines 324–360). -/
structure TravellingSalesmanApproximation (α : Type) where
  points : List (α × α)
  width : α
  height : α
  center : α × α
  distanceMatrix : ℕ → ℕ → α
  randomPath : List ℕ

namespace TravellingSalesmanApproximation

/-- Euclidean distance of the matrix entries (lines 387–393):
`sqrt((xi-xj)² + (yi-yj)²)` over the normalized points. -/
def matrixEntry {α : Type} (ops : JsNumOps α) (pts : List (α × α)) (i j : ℕ) : α :=
  let pi : α × α := pts.getD i (ops.ofRat 0, ops.ofRat 0)
  let pj : α × α := pts.getD j (ops.ofRat 0, ops.ofRat 0)
  ops.sqrtFn
    (ops.add (ops.mul (ops.sub pi.1 pj.1) (ops.sub pi.1 pj.1))
      (ops.mul (ops.sub pi.2 pj.2) (ops.sub pi.2 pj.2)))

/-- The constructor (lines 324–360): clone and normalize the points,
compute the center (mapped into the normalized square when given),
precompute the distance matrix, and set `randomPath = [0, …, n-1]`
(`generateRandomPath`, lines 435–441). -/
def make {α : Type} (ops : JsNumOps α) (pts : List (α × α)) (center : Option (α × α)) :
    TravellingSalesmanApproximation α :=
  let b := tsaBoundsOf ops pts
  let height := ops.sub (jsNum ops b.maxY) (jsNum ops b.minY)
  let width := ops.sub (jsNum ops b.maxX) (jsNum ops b.minX)
  let npts := pts.map (tsaRescale ops b width height)
  let ctr : α × α := match center with
    | none => (ops.div width (ops.ofRat 2), ops.div height (ops.ofRat 2))
    | some c =>
      (ops.div (ops.mul (ops.sub c.1 (jsNum ops b.minX)) width)
         (ops.sub (jsNum ops b.maxX) (jsNum ops b.minX)),
       ops.div (ops.mul (ops.sub c.2 (jsNum ops b.minY)) height)
         (ops.sub (jsNum ops b.maxY) (jsNum ops b.minY)))
  ⟨npts, width, height, ctr, matrixEntry ops npts, List.range npts.length⟩

/-- The sentinel `this.height * this.height + this.width * this.width + 1`
used to initialize minimum searches (lines 452, 458, 479). -/
def sentinel {α : Type} (ops : JsNumOps α) (t : TravellingSalesmanApproximation α) : α :=
  ops.add (ops.add (ops.mul t.height t.height) (ops.mul t.width t.width)) (ops.ofRat 1)

/-- Embedding of `swap` (lines 497–503): exchange positions `i` and `j` of
a cloned array. -/
def swapList (l : List ℕ) (i j : ℕ) : List ℕ :=
  (l.set i (l.getD j 0)).set j (l.getD i 0)

/-- Embedding of `detour` (lines 505–507). -/
def detourCost {α : Type} (ops : JsNumOps α) (M : ℕ → ℕ → α) (a x b : ℕ) : α :=
  ops.sub (ops.add (M a x) (M x b)) (M a b)

/-- The inner `k` loop of the selection (lines 460–466): minimum matrix
distance from the candidate to any point already on the path, seeded with
the sentinel. -/
def minDistToPath {α : Type} (ops : JsNumOps α) (M : ℕ → ℕ → α) (s : α)
    (path : List ℕ) (cand : ℕ) : α :=
  path.foldl (fun m p => if ops.ltb (M p cand) m then M p cand else m) s

/-- One iteration of the `j` loop of the selection (lines 456–475): update
`(maximalDistanceToTour, indexInRemaining)` when the candidate's minimum
distance to the path exceeds the running maximum. -/
def selectStep {α : Type} (ops : JsNumOps α) (M : ℕ → ℕ → α) (s : α)
    (path remaining : List ℕ) (st : α × ℕ) (j : ℕ) : α × ℕ :=
  if ops.ltb st.1 (minDistToPath ops M s path (remaining.getD j 0))
  then (minDistToPath ops M s path (remaining.getD j 0), j)
  else st

/-- The `j` loop of the selection (lines 456–475): track the candidate
whose minimum distance to the path is largest, starting from
`maximalDistanceToTour = -1` and `indexInRemaining = 0`; return
`indexInRemaining`. -/
def selectIndex {α : Type} (ops : JsNumOps α) (M : ℕ → ℕ → α) (s : α)
    (path remaining : List ℕ) (i n : ℕ) : ℕ :=
  ((List.range' i (n - i)).foldl (selectStep ops M s path remaining)
    (ops.ofRat (-1), 0)).2

/-- One iteration of the detour scan (lines 480–486): update
`(smallestDetour, indexInPath)` when inserting after position `k` gives a
smaller detour. -/
def detourStep {α : Type} (ops : JsNumOps α) (M : ℕ → ℕ → α) (path : List ℕ)
    (x : ℕ) (st : α × ℕ) (k : ℕ) : α × ℕ :=
  if ops.ltb (detourCost ops M (path.getD k 0) x (path.getD (k + 1) 0)) st.1
  then (detourCost ops M (path.getD k 0) x (path.getD (k + 1) 0), k)
  else st

/-- The insertion step (lines 479–491): find the adjacent pair of the path
with the smallest detour, compare it with the wrap-around detour, and
splice the new point in (at the end for a better wrap-around detour, after
`indexInPath` otherwise). -/
def insertPoint {α : Type} (ops : JsNumOps α) (M : ℕ → ℕ → α) (s : α)
    (path : List ℕ) (x : ℕ) : List ℕ :=
  if ops.ltb (detourCost ops M (path.getD (path.length - 1) 0) x (path.getD 0 0))
      ((List.range (path.length - 1)).foldl (detourStep ops M path x) (s, 0)).1
  then path ++ [x]
  else List.insertIdx
    (((List.range (path.length - 1)).foldl (detourStep ops M path x) (s, 0)).2 + 1) x path

/-- One iteration of the main loop of `solve` (lines 449–492) at index `i`:
select the farthest remaining point, swap it to position `i`, and insert it
into the path. -/
def solveStep {α : Type} (ops : JsNumOps α) (M : ℕ → ℕ → α) (s : α) (n : ℕ)
    (st : List ℕ × List ℕ) (i : ℕ) : List ℕ × List ℕ :=
  let idx := selectIndex ops M s st.2 st.1 i n
  let remaining := swapList st.1 idx i
  (remaining, insertPoint ops M s st.2 (remaining.getD i 0))

/-- The `path` array produced by `solve` (lines 443–495): seeded with
`remaining[0]` (for an empty input JS reads `undefined` there and faults
on its first use, modelled by the out-of-range index 0), then grown by
`n - 1` farthest-point insertions. -/
def solvePath {α : Type} (ops : JsNumOps α) (t : TravellingSalesmanApproximation α) :
    List ℕ :=
  let n := t.points.length
  ((List.range' 1 (n - 1)).foldl
    (solveStep ops t.distanceMatrix (sentinel ops t) n)
    (t.randomPath, [t.randomPath.getD 0 0])).2

/-- Embedding of `solve` (lines 443–495): it returns `paths = [path]`. -/
def solve {α : Type} (ops : JsNumOps α) (t : TravellingSalesmanApproximation α) :
    List (List ℕ) :=
  [solvePath ops t]

end TravellingSalesmanApproximation

/- ------------------------------------------------------------------ -/
/- getPointListData: flattening and the full query.                    -/
/- ------------------------------------------------------------------ -/

/-- The result object of `getPointListData` (lines 143–146): the ordered
identifier list and the identifier-to-cluster lookup (a JS object keyed by
identifier). -/
structure PlanResult where
  apartmentIds : List ℕ
  clusterLookup : List (ℕ × ℕ)
deriving DecidableEq

/-- What `getPointListData` hands to its callback as the second argument:
the result object, or — on the duck-typing branch of line 156 — the
`JSON.stringify`-ed empty result, a string. -/
inductive PlanCallback : Type
  | objRes (r : PlanResult)
  | strRes (s : String)
deriving DecidableEq

/-- The string `JSON.stringify(result)` produces for the empty result. -/
def emptyResultJson : String := "\x7b\"apartmentIds\":[],\"clusterLookup\":\x7b\x7d\x7d"

/-- The flattening loop (lines 227–232): push every group member into
`apartmentIds` and assign `apartmentClusterLookup[apartmentId] = clusterId`,
group by group in the resolved order. -/
def flattenGroups (gs : List GroupData) : List ℕ × List (ℕ × ℕ) :=
  gs.foldl
    (fun acc g =>
      g.apartmentIds.foldl
        (fun (acc2 : List ℕ × List (ℕ × ℕ)) id =>
          (acc2.1 ++ [id], assocSet acc2.2 id g.clusterId))
        acc)
    ([], [])

/-- Look a JS number index up in a list; `none` models the `undefined`
element access that makes the subsequent `.apartmentIds` read throw. -/
def optionGet {β : Type} (gs : List β) : List ℕ → Option (List β)
  | [] => some []
  | j :: rest =>
    match gs[j]? with
    | none => none
    | some g =>
      match optionGet gs rest with
      | none => none
      | some tl => some (g :: tl)

/-- The travelling-salesman instance `getPointListData` constructs on its
tour branch (lines 207–216): the representative coordinates of the sorted
groups as points, the effective center as the hint. -/
def planTsa {α : Type} (ops : JsNumOps α) (sc : SuperclusterIndex) (p : PlanParams) :
    TravellingSalesmanApproximation α :=
  TravellingSalesmanApproximation.make ops
    ((planGroups sc p).map (fun g => (ops.ofRat g.coordinates.1, ops.ofRat g.coordinates.2)))
    (some (ops.ofRat (effectiveCenter p).1, ops.ofRat (effectiveCenter p).2))

/-- Embedding of `getPointListData` (lines 142–237).  The callback never
receives an error argument; `none` models a thrown JS exception (reachable
via the tour branch on an empty group list, where `paths` is
`[ [undefined] ]` and the flattening loop dereferences `undefined`).  The
number operations `ops` feed the travelling-salesman heuristic. -/
def getPointListData {α : Type} (ops : JsNumOps α)
    (indexes : List (String × GeoJSONIndex)) (p : PlanParams) : Option PlanCallback :=
  match assocGet indexes p.source with
  | none => some (.objRes ⟨[], []⟩)
  | some .tileIdx => some (.strRes emptyResultJson)
  | some (.clusterIdx sc) =>
    let sorted := planGroups sc p
    if p.travellingSalesmanApprox then
      let path := (TravellingSalesmanApproximation.solve ops (planTsa ops sc p)).getD 0 []
      match optionGet sorted path with
      | none => none
      | some reordered =>
        let fl := flattenGroups reordered
        some (.objRes ⟨fl.1, fl.2⟩)
    else
      let fl := flattenGroups sorted
      some (.objRes ⟨fl.1, fl.2⟩)

/-- The identifier-to-cluster writes a single group contributes to the
lookup object, in loop order. -/
def groupPairs (g : GroupData) : List (ℕ × ℕ) :=
  g.apartmentIds.map (fun id => (id, g.clusterId))

/-- Replay a sequence of JS object assignments. -/
def writeList (m : List (ℕ × ℕ)) (ws : List (ℕ × ℕ)) : List (ℕ × ℕ) :=
  ws.foldl (fun m2 pr => assocSet m2 pr.1 pr.2) m

/-- Soundness of the abstract number operations over the comparisons the
tour heuristic actually performs: the sentinel compares above `-1`, and
any matrix entry that ever wins a `<` comparison (hence is not NaN-like)
also compares above `-1`.  IEEE doubles satisfy this: the sentinel is a
finite value at least 1, and matrix entries are square roots, hence
non-negative or NaN. -/
def TsaSound {α : Type} (ops : JsNumOps α) (t : TravellingSalesmanApproximation α) : Prop :=
  ops.ltb (ops.ofRat (-1)) (TravellingSalesmanApproximation.sentinel ops t) = true ∧
  ∀ i j, i < t.points.length → j < t.points.length →
    ∀ m, ops.ltb (t.distanceMatrix i j) m = true →
      ops.ltb (ops.ofRat (-1)) (t.distanceMatrix i j) = true

/-- The invariant of the main loop of `solve` before iteration `i`:
`remaining` is a permutation of the index range and the path is a
permutation of its first `i` entries. -/
def SolveInv (n i : ℕ) (st : List ℕ × List ℕ) : Prop :=
  st.1.Perm (List.range n) ∧ st.2.Perm (st.1.take i)

/-- A concrete two-entry cluster index: one singleton leaf (identifier 10)
and one aggregate cluster (cluster id 99) with two leaves (identifiers 21
and 22). -/
def demoIndex : SuperclusterIndex :=
  ⟨fun _ _ => [.leaf ⟨10, (0, 0)⟩, .agg 99],
   fun cid _ => if cid = 99 then [⟨21, (1, 1)⟩, ⟨22, (2, 2)⟩] else []⟩

/-- Query parameters with `maxCount = 2` against source `"s"`. -/
def demoParams : PlanParams := ⟨⟨0, 0, 0, 0⟩, 0, some 2, "s", 0, 16, none, false⟩

/- ------------------------------------------------------------------ -/
/- Helper lemmas on association lists.                                 -/
/- ------------------------------------------------------------------ -/

theorem assocGet_assocSet_self {κ β : Type} [DecidableEq κ]
    (l : List (κ × β)) (k : κ) (v : β) : assocGet (assocSet l k v) k = some v := by
  induction l with
  | nil => simp [assocSet, assocGet]
  | cons p rest ih =>
    by_cases h : p.1 = k
    · simp [assocSet, assocGet, h]
    · simp [assocSet, assocGet, h, ih]

theorem assocGet_assocSet_ne {κ β : Type} [DecidableEq κ]
    (l : List (κ × β)) (k k' : κ) (v : β) (hne : k ≠ k') :
    assocGet (assocSet l k v) k' = assocGet l k' := by
  induction l with
  | nil => simp [assocSet, assocGet, hne]
  | cons p rest ih =>
    by_cases h : p.1 = k
    · simp [assocSet, assocGet, h, hne]
    · simp [assocSet, assocGet, h, ih]

/- ------------------------------------------------------------------ -/
/- C3: request/data precedence in loadGeoJSON.                         -/
/- ------------------------------------------------------------------ -/

/-- C3 counterexample: with both `request` and `data` present, `loadGeoJSON`
does not deliver the invalid-input error — it proceeds with the fetch.
This refutes the claim that every violation of "exactly one of
request/data" yields the error. -/
theorem c3_counterexample :
    loadGeoJSON (some ⟨"http://example.com/a.json"⟩) (some "data") (fun _ => none) =
      .fetch ⟨"http://example.com/a.json"⟩ ∧
    ∀ e, loadGeoJSON (some ⟨"http://example.com/a.json"⟩) (some "data") (fun _ => none) ≠
      .invalid e := by
  refine ⟨rfl, fun e h => ?_⟩
  simp [loadGeoJSON] at h

/-- C3 amended: `loadGeoJSON` gives `request` precedence — whenever
`request` is present the fetch proceeds regardless of `data`; with
`request` absent a string `data` is parsed (parse failure yields the
invalid-input error), and with neither present the invalid-input error is
delivered.  Only the "neither present" half of the original claim holds. -/
theorem c3_request_precedence (parse : String → Option JsValue) :
    (∀ r d, loadGeoJSON (some r) d parse = .fetch r) ∧
    (∀ s, loadGeoJSON none (some s) parse =
      match parse s with
      | some v => .parsed v
      | none => .invalid invalidGeoJSONError) ∧
    loadGeoJSON none none parse = .invalid invalidGeoJSONError :=
  ⟨fun _ _ => rfl, fun _ => rfl, rfl⟩

/- ------------------------------------------------------------------ -/
/- C2: the per-(source, tile) load state machine.                      -/
/- ------------------------------------------------------------------ -/

/-- C2 counterexample: after a successful ingest, a successful tile fetch
for uid 7 and then `removeSource`, `reloadTile` still takes the
incremental `super.reloadTile` path — `removeSource` does not reset the
tiles of the source to Unloaded, refuting the claim. -/
theorem c2_counterexample :
    reloadTileTakesIncremental
      (removeSource
        (markTileLoaded
          (loadData ⟨[], []⟩ "s" false (fun _ => .ok .tileIdx) (fun _ => .ok .tileIdx)
              none (.geo ⟨[]⟩)).1
          "s" 7)
        "s")
      "s" 7 = true := by rfl

/-- C2 amended: the transition to Loaded occurs on the first successful
tile fetch, and a successful re-ingest (`loadData`) resets every tile of
the source back to Unloaded, so a subsequent `reloadTile` takes the
fresh-load path; `removeSource`, however, only deletes the index and
leaves the loaded-tile markers untouched, so after it `reloadTile` can
still take the incremental path. -/
theorem c2_state_machine :
    (∀ (st : WorkerState) (source : String) (cluster : Bool)
        (bc bt : GeoJSONDoc → Except JsError GeoJSONIndex) (d : GeoJSONDoc)
        (idx : GeoJSONIndex) (uid : ℕ),
      (if cluster then bc else bt) (normalizeDoc d) = Except.ok idx →
      reloadTileTakesIncremental
        (loadData st source cluster bc bt none (.geo d)).1 source uid = false) ∧
    (∀ (st : WorkerState) (source : String) (uid : ℕ),
      reloadTileTakesIncremental (markTileLoaded st source uid) source uid = true) ∧
    (∀ (st : WorkerState) (source : String),
      (removeSource st source).loaded = st.loaded) := by
  refine ⟨?_, ?_, fun _ _ => rfl⟩
  · intro st source cluster bc bt d idx uid hok
    simp [loadData, hok, reloadTileTakesIncremental, assocGet_assocSet_self]
  · intro st source uid
    simp [markTileLoaded, reloadTileTakesIncremental, assocGet_assocSet_self]

/-- C2 witness: the amended theorem applied at a concrete ingest. -/
theorem c2_state_machine_witness :
    reloadTileTakesIncremental
      (loadData ⟨[], []⟩ "s" false (fun _ => .ok .tileIdx) (fun _ => .ok .tileIdx)
        none (.geo ⟨[]⟩)).1 "s" 3 = false :=
  c2_state_machine.1 ⟨[], []⟩ "s" false (fun _ => .ok .tileIdx) (fun _ => .ok .tileIdx)
    ⟨[]⟩ .tileIdx 3 rfl

/- ------------------------------------------------------------------ -/
/- C5: build failure leaves the source's state untouched.              -/
/- ------------------------------------------------------------------ -/

/-- C5: if index construction throws during `loadData`, the error is
returned through the callback and the worker state — the registry entry
for the source and its loaded-tile marker set — is exactly as before. -/
theorem c5_build_failure_preserves_state
    (st : WorkerState) (source : String) (cluster : Bool)
    (bc bt : GeoJSONDoc → Except JsError GeoJSONIndex) (d : GeoJSONDoc) (e : JsError)
    (hfail : (if cluster then bc else bt) (normalizeDoc d) = Except.error e) :
    loadData st source cluster bc bt none (.geo d) = (st, .err (some e)) := by
  simp [loadData, hfail]

/-- C5 witness: a concrete failing cluster build over a populated state. -/
theorem c5_build_failure_witness :
    loadData ⟨[("s", .tileIdx)], [("s", [1])]⟩ "s" true
      (fun _ => .error ⟨"boom"⟩) (fun _ => .ok .tileIdx) none (.geo ⟨[]⟩) =
      (⟨[("s", .tileIdx)], [("s", [1])]⟩, .err (some ⟨"boom"⟩)) :=
  c5_build_failure_preserves_state ⟨[("s", .tileIdx)], [("s", [1])]⟩ "s" true
    (fun _ => .error ⟨"boom"⟩) (fun _ => .ok .tileIdx) ⟨[]⟩ ⟨"boom"⟩ rfl

/- ------------------------------------------------------------------ -/
/- C6: unknown source / non-cluster index behavior.                    -/
/- ------------------------------------------------------------------ -/

/-- C6 counterexample: for a bound index that lacks clustering capability,
`getPointListData` completes with the `JSON.stringify`-ed empty result —
a string, not the `{orderedIds: [], clusterOf: {}}` object shape the claim
promises. -/
theorem c6_counterexample :
    getPointListData ratOps [("s", .tileIdx)]
        ⟨⟨0, 0, 0, 0⟩, 0, none, "s", 0, 16, none, false⟩ =
      some (.strRes emptyResultJson) ∧
    ∀ r : PlanResult,
      getPointListData ratOps [("s", .tileIdx)]
          ⟨⟨0, 0, 0, 0⟩, 0, none, "s", 0, 16, none, false⟩ ≠
        some (.objRes r) := by
  refine ⟨rfl, fun r h => ?_⟩
  rw [show getPointListData ratOps [("s", .tileIdx)]
        ⟨⟨0, 0, 0, 0⟩, 0, none, "s", 0, 16, none, false⟩ =
      some (.strRes emptyResultJson) from rfl] at h
  simp at h

/-- C6 amended: an unknown `sourceId` yields the empty result object with
a null error; a bound index lacking clustering capability also yields a
null error, but with the JSON-stringified empty result (a string) instead
of the object shape.  Neither case raises an error. -/
theorem c6_unknown_source_empty {α : Type} (ops : JsNumOps α)
    (indexes : List (String × GeoJSONIndex)) (p : PlanParams) :
    (assocGet indexes p.source = none →
      getPointListData ops indexes p = some (.objRes ⟨[], []⟩)) ∧
    (assocGet indexes p.source = some .tileIdx →
      getPointListData ops indexes p = some (.strRes emptyResultJson)) := by
  constructor <;> intro h <;> simp [getPointListData, h]

/-- C6 witness: the amended theorem at an empty registry and at a registry
holding a tile index. -/
theorem c6_unknown_source_empty_witness :
    getPointListData ratOps []
        ⟨⟨0, 0, 0, 0⟩, 0, none, "s", 0, 16, none, false⟩ =
      some (.objRes ⟨[], []⟩) ∧
    getPointListData ratOps [("t", .tileIdx)]
        ⟨⟨0, 0, 0, 0⟩, 0, none, "t", 0, 16, none, false⟩ =
      some (.strRes emptyResultJson) :=
  ⟨(c6_unknown_source_empty ratOps [] ⟨⟨0, 0, 0, 0⟩, 0, none, "s", 0, 16, none, false⟩).1 rfl,
   (c6_unknown_source_empty ratOps [("t", .tileIdx)]
     ⟨⟨0, 0, 0, 0⟩, 0, none, "t", 0, 16, none, false⟩).2 rfl⟩

/- ------------------------------------------------------------------ -/
/- C9: idempotence of the geometry normalizer.                         -/
/- ------------------------------------------------------------------ -/

theorem shoelace_append_last (l : Ring) (x : ℚ × ℚ) :
    shoelace (l ++ [x]) = shoelace l +
      (match l.getLast? with
       | none => 0
       | some y => cross2 y x) := by
  induction l with
  | nil => simp [shoelace]
  | cons a t ih =>
    cases t with
    | nil => simp [shoelace]
    | cons b t' =>
      have h1 : shoelace ((a :: b :: t') ++ [x]) =
          cross2 a b + shoelace ((b :: t') ++ [x]) := rfl
      have h2 : shoelace (a :: b :: t') = cross2 a b + shoelace (b :: t') := rfl
      rw [h1, ih, h2, List.getLast?_cons_cons]
      ring

theorem shoelace_reverse (r : Ring) : shoelace r.reverse = -shoelace r := by
  induction r with
  | nil => simp [shoelace]
  | cons p l ih =>
    rw [List.reverse_cons, shoelace_append_last, ih, List.getLast?_reverse]
    cases l with
    | nil => simp [shoelace]
    | cons q t =>
      have h2 : shoelace (p :: q :: t) = cross2 p q + shoelace (q :: t) := by
        simp only [shoelace]
      simp only [List.head?_cons, h2, cross2]
      ring

theorem rewindRing_idem (c : Bool) (r : Ring) :
    rewindRing c (rewindRing c r) = rewindRing c r := by
  unfold rewindRing
  by_cases h : (if c then shoelace r ≤ 0 else 0 ≤ shoelace r)
  · simp [h]
  · simp only [h, if_false]
    have : (if c then shoelace r.reverse ≤ 0 else 0 ≤ shoelace r.reverse) := by
      cases c <;> simp_all [shoelace_reverse] <;> linarith
    simp [this]

theorem rewindRings_idem (c : Bool) (rs : List Ring) :
    rewindRings c (rewindRings c rs) = rewindRings c rs := by
  cases rs with
  | nil => rfl
  | cons outer holes =>
    simp only [rewindRings, rewindRing_idem, List.map_map, List.cons.injEq, true_and]
    exact List.map_congr_left fun a _ => rewindRing_idem _ a

theorem normalizeGeometry_idem (c : Bool) (g : Geometry) :
    normalizeGeometry c (normalizeGeometry c g) = normalizeGeometry c g := by
  cases g with
  | point p => rfl
  | lineString cs => rfl
  | polygon rings => simp [normalizeGeometry, rewindRings_idem]
  | multiPolygon polys =>
    simp only [normalizeGeometry, List.map_map, Geometry.multiPolygon.injEq]
    exact List.map_congr_left fun a _ => rewindRings_idem _ a

/-- C9: the geometry normalization applied at ingest (canonical polygon
winding, `rewind(data, true)` at line 126, modelled from the spec since the
rewinding library is an external dependency) is idempotent: normalizing an
already-normalized document changes nothing. -/
theorem c9_normalize_idempotent (d : GeoJSONDoc) :
    normalizeDoc (normalizeDoc d) = normalizeDoc d := by
  unfold normalizeDoc
  simp only [List.map_map, GeoJSONDoc.mk.injEq]
  exact List.map_congr_left fun f _ => by
    simp [Function.comp, normalizeGeometry_idem]

/- ------------------------------------------------------------------ -/
/- Sorting lemmas for the distance sort.                               -/
/- ------------------------------------------------------------------ -/

theorem insertSorted_perm {β : Type} (le : β → β → Bool) (x : β) (l : List β) :
    (insertSorted le x l).Perm (x :: l) := by
  induction l with
  | nil => exact List.Perm.refl _
  | cons y ys ih =>
    by_cases h : le y x
    · simp only [insertSorted, h, if_true]
      exact (ih.cons y).trans (List.Perm.swap x y ys)
    · simp only [insertSorted, h, if_false]
      exact List.Perm.refl _

theorem sortBy_perm {β : Type} (le : β → β → Bool) (l : List β) :
    (sortBy le l).Perm l := by
  induction l with
  | nil => exact List.Perm.refl _
  | cons x xs ih =>
    exact (insertSorted_perm le x (sortBy le xs)).trans (ih.cons x)

theorem insertSorted_sorted {β : Type} (le : β → β → Bool)
    (htot : ∀ a b, le a b = false → le b a = true)
    (htrans : ∀ a b c, le a b = true → le b c = true → le a c = true)
    (x : β) (l : List β) (hl : l.Pairwise (fun a b => le a b = true)) :
    (insertSorted le x l).Pairwise (fun a b => le a b = true) := by
  induction l with
  | nil => simp [insertSorted]
  | cons y ys ih =>
    rcases List.pairwise_cons.1 hl with ⟨hy, hys⟩
    by_cases h : le y x
    · simp only [insertSorted, h, if_true]
      refine List.pairwise_cons.2 ⟨?_, ih hys⟩
      intro b hb
      rcases List.mem_cons.1 (((insertSorted_perm le x ys).mem_iff).1 hb) with rfl | hb
      · exact h
      · exact hy b hb
    · simp only [insertSorted, h, if_false]
      refine List.pairwise_cons.2 ⟨?_, hl⟩
      intro b hb
      have hxy : le x y = true := htot y x (by simpa using h)
      rcases List.mem_cons.1 hb with hb | hb
      · exact hb ▸ hxy
      · exact htrans x y b hxy (hy b hb)

theorem sortBy_sorted {β : Type} (le : β → β → Bool)
    (htot : ∀ a b, le a b = false → le b a = true)
    (htrans : ∀ a b c, le a b = true → le b c = true → le a c = true)
    (l : List β) : (sortBy le l).Pairwise (fun a b => le a b = true) := by
  induction l with
  | nil => simp [sortBy]
  | cons x xs ih => exact insertSorted_sorted le htot htrans x (sortBy le xs) ih

theorem groupLe_total (a b : GroupData) : groupLe a b = false → groupLe b a = true := by
  simp only [groupLe, decide_eq_false_iff_not, decide_eq_true_eq, not_le]
  exact fun h => le_of_lt h

theorem groupLe_trans (a b c : GroupData) :
    groupLe a b = true → groupLe b c = true → groupLe a c = true := by
  simp only [groupLe, decide_eq_true_eq]
  exact fun h1 h2 => le_trans h1 h2

theorem distanceSort_mem_distance (gs : List GroupData) (center : ℚ × ℚ) (g : GroupData)
    (hg : g ∈ distanceSort gs center) :
    g.distance = calculateDistarnce center g.coordinates := by
  unfold distanceSort at hg
  by_cases hlen : gs.length = 0
  · simp [hlen] at hg
    rw [List.length_eq_zero] at hlen
    subst hlen
    simp at hg
  · simp only [hlen, if_false] at hg
    have := (sortBy_perm groupLe (gs.map (setGroupDistance center))).mem_iff.1 hg
    rcases List.mem_map.1 this with ⟨orig, _, rfl⟩
    rfl

/-- C7: in every query that does not request the approximate tour, the
cluster/leaf groups of the plan are ordered ascending by their squared
Euclidean distance from the effective center: for any two groups in result
order, the earlier one's representative coordinate is at most as far from
the center as the later one's.  (`planGroups` is the group order
`getPointListData` flattens on the non-tour branch.) -/
theorem c7_distance_sort_monotone (sc : SuperclusterIndex) (p : PlanParams) :
    (planGroups sc p).Pairwise
      (fun a b => calculateDistarnce (effectiveCenter p) a.coordinates ≤
        calculateDistarnce (effectiveCenter p) b.coordinates) := by
  unfold planGroups
  set gs := collectGroups sc (effectiveZoom p) (jsBudget p.maxCount)
    (sc.clustersIn p.bounds (effectiveZoom p)) 0 with hgs
  have hsorted : (distanceSort gs (effectiveCenter p)).Pairwise
      (fun a b => groupLe a b = true) := by
    unfold distanceSort
    by_cases hlen : gs.length = 0
    · simp [hlen]
      rw [List.length_eq_zero] at hlen
      simp [hlen]
    · simp only [hlen, if_false]
      exact sortBy_sorted groupLe groupLe_total groupLe_trans _
  refine List.Pairwise.imp_of_mem ?_ hsorted
  intro a b ha hb hle
  have hda := distanceSort_mem_distance gs (effectiveCenter p) a ha
  have hdb := distanceSort_mem_distance gs (effectiveCenter p) b hb
  simp only [groupLe, decide_eq_true_eq] at hle
  rw [hda, hdb] at hle
  exact hle

/- ------------------------------------------------------------------ -/
/- Characterization of the flattening loop.                            -/
/- ------------------------------------------------------------------ -/

theorem flattenGroups_inner (cid : ℕ) (ids : List ℕ) :
    ∀ (acc : List ℕ × List (ℕ × ℕ)),
      ids.foldl (fun (acc2 : List ℕ × List (ℕ × ℕ)) id =>
        (acc2.1 ++ [id], assocSet acc2.2 id cid)) acc =
      (acc.1 ++ ids, writeList acc.2 (ids.map (fun id => (id, cid)))) := by
  induction ids with
  | nil => intro acc; simp [writeList]
  | cons id rest ih =>
    intro acc
    rw [List.foldl_cons, ih]
    simp only [List.map_cons, List.append_assoc, List.singleton_append]
    rfl

theorem flattenGroups_eq (gs : List GroupData) :
    ∀ (acc : List ℕ × List (ℕ × ℕ)),
      gs.foldl (fun acc g =>
        g.apartmentIds.foldl (fun (acc2 : List ℕ × List (ℕ × ℕ)) id =>
          (acc2.1 ++ [id], assocSet acc2.2 id g.clusterId)) acc) acc =
      (acc.1 ++ gs.flatMap GroupData.apartmentIds,
       writeList acc.2 (gs.flatMap groupPairs)) := by
  induction gs with
  | nil => intro acc; simp [writeList]
  | cons g rest ih =>
    intro acc
    rw [List.foldl_cons, flattenGroups_inner, ih]
    rw [Prod.mk.injEq]
    constructor
    · simp
    · simp only [List.flatMap_cons, writeList, List.foldl_append, groupPairs]

theorem flattenGroups_fst (gs : List GroupData) :
    (flattenGroups gs).1 = gs.flatMap GroupData.apartmentIds := by
  unfold flattenGroups
  rw [flattenGroups_eq]
  simp

theorem flattenGroups_snd (gs : List GroupData) :
    (flattenGroups gs).2 = writeList [] (gs.flatMap groupPairs) := by
  unfold flattenGroups
  rw [flattenGroups_eq]

theorem writeList_get (k v : ℕ) :
    ∀ (ws m : List (ℕ × ℕ)),
      (∀ v', (k, v') ∈ ws → v' = v) →
      ((k, v) ∈ ws ∨ assocGet m k = some v) →
      assocGet (writeList m ws) k = some v := by
  intro ws
  induction ws with
  | nil =>
    intro m _ hm
    rcases hm with hm | hm
    · simp at hm
    · simpa [writeList] using hm
  | cons pr rest ih =>
    intro m huniq hmem
    rw [show writeList m (pr :: rest) = writeList (assocSet m pr.1 pr.2) rest from rfl]
    by_cases hk : pr.1 = k
    · have hv : pr.2 = v := huniq pr.2 (by rw [← hk]; exact List.mem_cons_self _ _)
      refine ih (assocSet m pr.1 pr.2) (fun v' hv' => huniq v' (List.mem_cons_of_mem _ hv')) ?_
      right
      rw [hk, hv] at *
      exact assocGet_assocSet_self m k v
    · refine ih (assocSet m pr.1 pr.2) (fun v' hv' => huniq v' (List.mem_cons_of_mem _ hv')) ?_
      rcases hmem with hmem | hmem
      · rcases List.mem_cons.1 hmem with heq | hmem
        · exact absurd (congrArg Prod.fst heq.symm) hk
        · exact Or.inl hmem
      · right
        rw [assocGet_assocSet_ne m pr.1 k pr.2 hk]
        exact hmem

theorem mem_val_unique (l : List (ℕ × ℕ)) (hnd : (l.map Prod.fst).Nodup)
    (k v v' : ℕ) (h1 : (k, v) ∈ l) (h2 : (k, v') ∈ l) : v' = v := by
  induction l with
  | nil => simp at h1
  | cons p rest ih =>
    rw [List.map_cons, List.nodup_cons] at hnd
    rcases List.mem_cons.1 h1 with he1 | h1' <;> rcases List.mem_cons.1 h2 with he2 | h2'
    · rw [← he1] at he2; exact (Prod.mk.injEq .. ▸ he2).2
    · exact absurd (List.mem_map.2 ⟨(k, v'), h2', by rw [← he1]⟩) hnd.1
    · exact absurd (List.mem_map.2 ⟨(k, v), h1', by rw [← he2]⟩) hnd.1
    · exact ih hnd.2 h1' h2'

theorem groupPairs_keys (gs : List GroupData) :
    (gs.flatMap groupPairs).map Prod.fst = gs.flatMap GroupData.apartmentIds := by
  induction gs with
  | nil => simp
  | cons g rest ih =>
    simp only [List.flatMap_cons, List.map_append, ih, groupPairs, List.map_map]
    rw [show (Prod.fst ∘ fun id : ℕ => (id, g.clusterId)) = fun a => a from rfl,
      List.map_id']

/-- The content of the flattening loop: under global distinctness of the
member identifiers, `apartmentIds` is the group-order concatenation and
the lookup sends every surfaced identifier to its group's cluster id. -/
theorem flattenGroups_spec (gs : List GroupData)
    (hnd : (gs.flatMap GroupData.apartmentIds).Nodup) :
    (flattenGroups gs).1 = gs.flatMap GroupData.apartmentIds ∧
    (flattenGroups gs).1.Nodup ∧
    (∀ g ∈ gs, ∀ id ∈ g.apartmentIds,
      assocGet (flattenGroups gs).2 id = some g.clusterId) := by
  refine ⟨flattenGroups_fst gs, by rw [flattenGroups_fst]; exact hnd, ?_⟩
  intro g hg id hid
  rw [flattenGroups_snd]
  have hkeys : ((gs.flatMap groupPairs).map Prod.fst).Nodup := by
    rw [groupPairs_keys]; exact hnd
  have hmem : (id, g.clusterId) ∈ gs.flatMap groupPairs :=
    List.mem_flatMap.2 ⟨g, hg, List.mem_map.2 ⟨id, hid, rfl⟩⟩
  exact writeList_get id g.clusterId (gs.flatMap groupPairs) []
    (fun v' hv' => mem_val_unique _ hkeys id g.clusterId v' hmem hv')
    (Or.inl hmem)

/- ------------------------------------------------------------------ -/
/- Properties of the cluster loop.                                     -/
/- ------------------------------------------------------------------ -/

theorem clusterFeaturesOf_sublist (sc : SuperclusterIndex) (zoom : ℤ)
    (budget : Option ℕ) (c : ClusterEntry) :
    (clusterFeaturesOf sc zoom budget c).Sublist (clusterFeaturesOf sc zoom none c) := by
  cases c with
  | leaf f => exact List.Sublist.refl _
  | agg cid =>
    cases budget with
    | none => exact List.Sublist.refl _
    | some k => exact List.take_sublist k _

theorem mkGroupOf_ids (sc : SuperclusterIndex) (zoom : ℤ) (budget : Option ℕ)
    (c : ClusterEntry) :
    (mkGroupOf sc zoom budget c).apartmentIds =
      (clusterFeaturesOf sc zoom budget c).map Leaf.i := rfl

theorem collectGroups_flat_sublist (sc : SuperclusterIndex) (zoom : ℤ)
    (budget : Option ℕ) :
    ∀ (cs : List ClusterEntry) (cnt : ℕ),
      ((collectGroups sc zoom budget cs cnt).flatMap GroupData.apartmentIds).Sublist
        (cs.flatMap (fun c => (clusterFeaturesOf sc zoom none c).map Leaf.i)) := by
  intro cs
  induction cs with
  | nil => intro cnt; simp [collectGroups]
  | cons c rest ih =>
    intro cnt
    have hone : ((mkGroupOf sc zoom budget c).apartmentIds).Sublist
        ((clusterFeaturesOf sc zoom none c).map Leaf.i) := by
      rw [mkGroupOf_ids]
      exact (clusterFeaturesOf_sublist sc zoom budget c).map Leaf.i
    rw [show collectGroups sc zoom budget (c :: rest) cnt =
      (if budgetReached (cnt + (clusterFeaturesOf sc zoom budget c).length) budget
       then [mkGroupOf sc zoom budget c]
       else mkGroupOf sc zoom budget c ::
         collectGroups sc zoom budget rest
           (cnt + (clusterFeaturesOf sc zoom budget c).length)) from rfl]
    by_cases hb : budgetReached (cnt + (clusterFeaturesOf sc zoom budget c).length) budget
    · simp only [hb, if_true, List.flatMap_cons, List.flatMap_nil, List.flatMap_cons]
      rw [List.append_nil]
      exact hone.trans (List.sublist_append_left _ _)
    · simp only [hb, if_false, List.flatMap_cons]
      exact hone.append (ih _)

theorem clusterFeaturesOf_length_le (sc : SuperclusterIndex) (zoom : ℤ) (k : ℕ)
    (hk : 1 ≤ k) (c : ClusterEntry) :
    (clusterFeaturesOf sc zoom (some k) c).length ≤ k := by
  cases c with
  | leaf f => simpa [clusterFeaturesOf] using hk
  | agg cid =>
    simp only [clusterFeaturesOf, scGetLeaves, List.length_take]
    omega

theorem collectGroups_budget_le (sc : SuperclusterIndex) (zoom : ℤ) (k : ℕ)
    (hk : 1 ≤ k) :
    ∀ (cs : List ClusterEntry) (cnt : ℕ), cnt < k →
      cnt + ((collectGroups sc zoom (some k) cs cnt).flatMap
        GroupData.apartmentIds).length ≤ 2 * k - 1 := by
  intro cs
  induction cs with
  | nil => intro cnt hcnt; simp [collectGroups]; omega
  | cons c rest ih =>
    intro cnt hcnt
    have hflen : (clusterFeaturesOf sc zoom (some k) c).length ≤ k :=
      clusterFeaturesOf_length_le sc zoom k hk c
    have hgid : (mkGroupOf sc zoom (some k) c).apartmentIds.length =
        (clusterFeaturesOf sc zoom (some k) c).length := by
      rw [mkGroupOf_ids, List.length_map]
    rw [show collectGroups sc zoom (some k) (c :: rest) cnt =
      (if budgetReached (cnt + (clusterFeaturesOf sc zoom (some k) c).length) (some k)
       then [mkGroupOf sc zoom (some k) c]
       else mkGroupOf sc zoom (some k) c ::
         collectGroups sc zoom (some k) rest
           (cnt + (clusterFeaturesOf sc zoom (some k) c).length)) from rfl]
    by_cases hb : budgetReached (cnt + (clusterFeaturesOf sc zoom (some k) c).length) (some k)
    · simp only [hb, if_true, List.flatMap_cons, List.flatMap_nil, List.append_nil, hgid]
      omega
    · simp only [budgetReached, decide_eq_true_eq, not_le] at hb
      simp only [budgetReached, decide_eq_true_eq] at *
      rw [if_neg (by omega), List.flatMap_cons, List.length_append, hgid]
      have := ih (cnt + (clusterFeaturesOf sc zoom (some k) c).length) (by omega)
      omega

theorem collectGroups_unbounded (sc : SuperclusterIndex) (zoom : ℤ) :
    ∀ (cs : List ClusterEntry) (cnt : ℕ),
      collectGroups sc zoom none cs cnt = cs.map (mkGroupOf sc zoom none) := by
  intro cs
  induction cs with
  | nil => intro cnt; rfl
  | cons c rest ih =>
    intro cnt
    rw [show collectGroups sc zoom none (c :: rest) cnt =
      (if budgetReached (cnt + (clusterFeaturesOf sc zoom none c).length) none
       then [mkGroupOf sc zoom none c]
       else mkGroupOf sc zoom none c ::
         collectGroups sc zoom none rest
           (cnt + (clusterFeaturesOf sc zoom none c).length)) from rfl]
    simp only [budgetReached, if_false, Bool.false_eq_true, List.map_cons]
    rw [ih]

theorem flatMap_perm {β γ : Type} {l l' : List β} (h : l.Perm l') (f : β → List γ) :
    (l.flatMap f).Perm (l'.flatMap f) := by
  rw [List.flatMap_def, List.flatMap_def]
  exact (h.map f).flatten

theorem distanceSort_perm (gs : List GroupData) (c : ℚ × ℚ) :
    (distanceSort gs c).Perm (gs.map (setGroupDistance c)) := by
  unfold distanceSort
  by_cases h : gs.length = 0
  · rw [List.length_eq_zero] at h
    subst h
    simp
  · simp only [h, if_false]
    exact sortBy_perm _ _

theorem setGroupDistance_ids (c : ℚ × ℚ) (g : GroupData) :
    (setGroupDistance c g).apartmentIds = g.apartmentIds := rfl

/-- The members of the sorted plan groups are, as a multiset, exactly the
members collected by the cluster loop. -/
theorem planGroups_flat_perm (sc : SuperclusterIndex) (p : PlanParams) :
    ((planGroups sc p).flatMap GroupData.apartmentIds).Perm
      ((collectGroups sc (effectiveZoom p) (jsBudget p.maxCount)
        (sc.clustersIn p.bounds (effectiveZoom p)) 0).flatMap GroupData.apartmentIds) := by
  unfold planGroups
  refine (flatMap_perm (distanceSort_perm _ _) _).trans ?_
  rw [List.flatMap_map]
  exact List.Perm.refl _

/- ------------------------------------------------------------------ -/
/- Permutation properties of the tour heuristic.                       -/
/- ------------------------------------------------------------------ -/

open TravellingSalesmanApproximation

theorem getD_cons_set_perm (t : List ℕ) (x : ℕ) :
    ∀ (m : ℕ), m < t.length → ((t.getD m 0) :: t.set m x).Perm (x :: t) := by
  induction t with
  | nil => intro m hm; simp at hm
  | cons a t' ih =>
    intro m hm
    cases m with
    | zero =>
      simp only [List.getD_cons_zero, List.set_cons_zero]
      exact List.Perm.swap x a t'
    | succ m' =>
      simp only [List.getD_cons_succ, List.set_cons_succ]
      refine (List.Perm.swap a (t'.getD m' 0) (t'.set m' x)).trans ?_
      refine ((ih m' (by simpa using hm)).cons a).trans ?_
      exact List.Perm.swap x a t'

theorem swapList_perm (l : List ℕ) :
    ∀ (a b : ℕ), a < l.length → b < l.length → (swapList l a b).Perm l := by
  induction l with
  | nil => intro a b ha _; simp at ha
  | cons h t ih =>
    intro a b ha hb
    unfold swapList
    cases a with
    | zero =>
      cases b with
      | zero =>
        simp only [List.getD_cons_zero, List.set_cons_zero]
        exact List.Perm.refl _
      | succ m =>
        simp only [List.getD_cons_succ, List.getD_cons_zero, List.set_cons_zero,
          List.set_cons_succ]
        exact getD_cons_set_perm t h m (by simpa using hb)
    | succ k =>
      cases b with
      | zero =>
        simp only [List.getD_cons_zero, List.getD_cons_succ, List.set_cons_succ,
          List.set_cons_zero]
        exact getD_cons_set_perm t h k (by simpa using ha)
      | succ m =>
        simp only [List.getD_cons_succ, List.set_cons_succ]
        exact (ih k m (by simpa using ha) (by simpa using hb)).cons h

theorem set_take_of_le {β : Type} (l : List β) (i n : ℕ) (x : β) (h : i ≤ n) :
    (l.set n x).take i = l.take i := by
  apply List.ext_getElem?
  intro m
  rw [List.getElem?_take, List.getElem?_take]
  by_cases hm : m < i
  · have hne : n ≠ m := by omega
    simp [hm, List.getElem?_set, hne]
  · simp [hm]

theorem swapList_take (l : List ℕ) (a b i : ℕ) (ha : i ≤ a) (hb : i ≤ b) :
    (swapList l a b).take i = l.take i := by
  unfold swapList
  rw [set_take_of_le _ i b _ hb, set_take_of_le _ i a _ ha]

theorem swapList_length (l : List ℕ) (a b : ℕ) :
    (swapList l a b).length = l.length := by
  unfold swapList
  rw [List.length_set, List.length_set]

theorem minDist_gt_negOne {α : Type} (ops : JsNumOps α) (M : ℕ → ℕ → α) (s : α) (n : ℕ)
    (hs : ops.ltb (ops.ofRat (-1)) s = true)
    (hM : ∀ i j, i < n → j < n → ∀ m, ops.ltb (M i j) m = true →
      ops.ltb (ops.ofRat (-1)) (M i j) = true)
    (path : List ℕ) (hpath : ∀ p ∈ path, p < n) (c : ℕ) (hc : c < n) :
    ops.ltb (ops.ofRat (-1)) (minDistToPath ops M s path c) = true := by
  unfold minDistToPath
  refine @List.foldlRecOn α ℕ (fun v => ops.ltb (ops.ofRat (-1)) v = true)
    path _ s hs ?_
  intro b hb a ha
  by_cases h : ops.ltb (M a c) b
  · rw [if_pos h]
    exact hM a c (hpath a ha) hc b h
  · rw [if_neg h]
    exact hb

theorem selectIndex_mem {α : Type} (ops : JsNumOps α) (M : ℕ → ℕ → α) (s : α)
    (path remaining : List ℕ) (i n : ℕ) (hin : i < n)
    (hmd : ops.ltb (ops.ofRat (-1))
      (minDistToPath ops M s path (remaining.getD i 0)) = true) :
    i ≤ selectIndex ops M s path remaining i n ∧
      selectIndex ops M s path remaining i n < n := by
  unfold selectIndex
  have hsplit : n - i = (n - i - 1) + 1 := by omega
  rw [hsplit, List.range'_succ, List.foldl_cons]
  have hbase : (selectStep ops M s path remaining (ops.ofRat (-1), 0) i) =
      (minDistToPath ops M s path (remaining.getD i 0), i) := by
    unfold selectStep
    rw [if_pos hmd]
  rw [hbase]
  refine @List.foldlRecOn (α × ℕ) ℕ (fun st => i ≤ st.2 ∧ st.2 < n)
    (List.range' (i + 1) (n - i - 1)) (selectStep ops M s path remaining)
    (minDistToPath ops M s path (remaining.getD i 0), i) ⟨le_rfl, hin⟩ ?_
  intro st hst j hj
  unfold selectStep
  by_cases h : ops.ltb st.1 (minDistToPath ops M s path (remaining.getD j 0))
  · rw [if_pos h]
    rcases List.mem_range'_1.1 hj with ⟨hj1, hj2⟩
    exact ⟨by omega, by omega⟩
  · rw [if_neg h]
    exact hst

theorem detourFold_snd_le {α : Type} (ops : JsNumOps α) (M : ℕ → ℕ → α)
    (path : List ℕ) (x : ℕ) (s : α) (hne : path ≠ []) :
    ((List.range (path.length - 1)).foldl (detourStep ops M path x) (s, 0)).2 + 1 ≤
      path.length := by
  have h1 : 0 < path.length := List.length_pos.2 hne
  refine @List.foldlRecOn (α × ℕ) ℕ (fun st => st.2 + 1 ≤ path.length)
    (List.range (path.length - 1)) (detourStep ops M path x) (s, 0) (by omega) ?_
  intro st hst k hk
  unfold detourStep
  by_cases h : ops.ltb (detourCost ops M (path.getD k 0) x (path.getD (k + 1) 0)) st.1
  · rw [if_pos h]
    have := List.mem_range.1 hk
    omega
  · rw [if_neg h]
    exact hst

theorem insertPoint_perm {α : Type} (ops : JsNumOps α) (M : ℕ → ℕ → α) (s : α)
    (path : List ℕ) (hne : path ≠ []) (x : ℕ) :
    (insertPoint ops M s path x).Perm (x :: path) := by
  unfold insertPoint
  by_cases h : ops.ltb (detourCost ops M (path.getD (path.length - 1) 0) x (path.getD 0 0))
      ((List.range (path.length - 1)).foldl (detourStep ops M path x) (s, 0)).1
  · rw [if_pos h]
    exact List.perm_append_singleton x path
  · rw [if_neg h]
    exact List.perm_insertIdx x path (detourFold_snd_le ops M path x s hne)

theorem solveStep_inv {α : Type} (ops : JsNumOps α) (M : ℕ → ℕ → α) (s : α) (n i : ℕ)
    (hs : ops.ltb (ops.ofRat (-1)) s = true)
    (hM : ∀ a b, a < n → b < n → ∀ m, ops.ltb (M a b) m = true →
      ops.ltb (ops.ofRat (-1)) (M a b) = true)
    (st : List ℕ × List ℕ) (hinv : SolveInv n i st) (hi : 1 ≤ i) (hin : i < n) :
    SolveInv n (i + 1) (solveStep ops M s n st i) := by
  rcases hinv with ⟨hrem, hpath⟩
  have hlen : st.1.length = n := hrem.length_eq.trans (List.length_range n)
  have hmem : ∀ y ∈ st.1, y < n := fun y hy => List.mem_range.1 (hrem.mem_iff.1 hy)
  have hpmem : ∀ p ∈ st.2, p < n := by
    intro p hp
    exact hmem p ((List.take_sublist i st.1).subset (hpath.mem_iff.1 hp))
  have hcand : st.1.getD i 0 < n := by
    rw [List.getD_eq_getElem st.1 0 (by omega)]
    exact hmem _ (List.getElem_mem _)
  have hmd : ops.ltb (ops.ofRat (-1))
      (minDistToPath ops M s st.2 (st.1.getD i 0)) = true :=
    minDist_gt_negOne ops M s n hs hM st.2 hpmem _ hcand
  rcases selectIndex_mem ops M s st.2 st.1 i n hin hmd with ⟨hidx1, hidx2⟩
  unfold solveStep
  simp only
  constructor
  · exact (swapList_perm st.1 _ i (by omega) (by omega)).trans hrem
  · have htake : (swapList st.1 (selectIndex ops M s st.2 st.1 i n) i).take i =
        st.1.take i := swapList_take st.1 _ i i hidx1 le_rfl
    have hlen' : (swapList st.1 (selectIndex ops M s st.2 st.1 i n) i).length = n := by
      rw [swapList_length]; exact hlen
    have hpathne : st.2 ≠ [] := by
      have : st.2.length = i := by
        rw [hpath.length_eq, List.length_take, hlen]
        omega
      intro hcon
      rw [hcon] at this
      simp at this
      omega
    have hilen : i < (swapList st.1 (selectIndex ops M s st.2 st.1 i n) i).length := by
      omega
    have htakesucc : (swapList st.1 (selectIndex ops M s st.2 st.1 i n) i).take (i + 1) =
        (swapList st.1 (selectIndex ops M s st.2 st.1 i n) i).take i ++
          [(swapList st.1 (selectIndex ops M s st.2 st.1 i n) i).getD i 0] := by
      rw [List.take_succ]
      congr 1
      rw [List.getElem?_eq_getElem hilen, List.getD_eq_getElem _ 0 hilen]
      rfl
    refine (insertPoint_perm ops M s st.2 hpathne _).trans ?_
    rw [htakesucc, htake]
    refine ((hpath.cons _).trans ?_)
    exact (List.perm_append_singleton _ _).symm

theorem solveFold_inv {α : Type} (ops : JsNumOps α) (M : ℕ → ℕ → α) (s : α) (n : ℕ)
    (hs : ops.ltb (ops.ofRat (-1)) s = true)
    (hM : ∀ a b, a < n → b < n → ∀ m, ops.ltb (M a b) m = true →
      ops.ltb (ops.ofRat (-1)) (M a b) = true) :
    ∀ (k i : ℕ) (st : List ℕ × List ℕ), 1 ≤ i → i + k ≤ n → SolveInv n i st →
      SolveInv n (i + k) ((List.range' i k).foldl (solveStep ops M s n) st) := by
  intro k
  induction k with
  | zero => intro i st _ _ hinv; simpa using hinv
  | succ k ih =>
    intro i st hi hik hinv
    rw [List.range'_succ, List.foldl_cons]
    have hstep := solveStep_inv ops M s n i hs hM st hinv hi (by omega)
    have := ih (i + 1) (solveStep ops M s n st i) (by omega) (by omega) hstep
    have harith : i + 1 + k = i + (k + 1) := by omega
    rw [harith] at this
    exact this

/-- The tour produced by `solve` is a permutation of the index range,
provided the input is non-empty, `randomPath` is the identity range (as
the constructor guarantees), and the number comparisons are sound. -/
theorem solvePath_perm {α : Type} (ops : JsNumOps α)
    (t : TravellingSalesmanApproximation α)
    (hrand : t.randomPath = List.range t.points.length)
    (hn : 1 ≤ t.points.length)
    (hs : ops.ltb (ops.ofRat (-1)) (sentinel ops t) = true)
    (hM : ∀ a b, a < t.points.length → b < t.points.length → ∀ m,
      ops.ltb (t.distanceMatrix a b) m = true →
      ops.ltb (ops.ofRat (-1)) (t.distanceMatrix a b) = true) :
    (solvePath ops t).Perm (List.range t.points.length) := by
  unfold solvePath
  rw [hrand]
  have hget0 : (List.range t.points.length).getD 0 0 = 0 := by
    rw [List.getD_eq_getElem _ 0 (by simpa using hn)]
    simp
  have hinv0 : SolveInv t.points.length 1
      (List.range t.points.length, [(List.range t.points.length).getD 0 0]) := by
    constructor
    · exact List.Perm.refl _
    · rw [hget0]
      have ht : (List.range t.points.length).take 1 = [0] := by
        rw [List.take_range]
        have : 1 ⊓ t.points.length = 1 := by omega
        rw [this]
        rfl
      simp only [ht]
      exact List.Perm.refl _
  have hfold := solveFold_inv ops t.distanceMatrix (sentinel ops t) t.points.length hs hM
    (t.points.length - 1) 1 _ le_rfl (by omega) hinv0
  have harith : 1 + (t.points.length - 1) = t.points.length := by omega
  rw [harith] at hfold
  rcases hfold with ⟨hrem, hpath⟩
  refine hpath.trans ?_
  have hlen : ((List.range' 1 (t.points.length - 1)).foldl
      (solveStep ops t.distanceMatrix (sentinel ops t) t.points.length)
      (List.range t.points.length,
        [(List.range t.points.length).getD 0 0])).1.length = t.points.length :=
    hrem.length_eq.trans (List.length_range _)
  rw [List.take_of_length_le (le_of_eq hlen)]
  exact hrem

theorem make_points_length {α : Type} (ops : JsNumOps α) (pts : List (α × α))
    (c : Option (α × α)) : (make ops pts c).points.length = pts.length := by
  simp [make]

theorem make_randomPath {α : Type} (ops : JsNumOps α) (pts : List (α × α))
    (c : Option (α × α)) :
    (make ops pts c).randomPath = List.range (make ops pts c).points.length := rfl

/-- On inputs of one or two points the heuristic returns the input order
unchanged. -/
theorem solvePath_small {α : Type} (ops : JsNumOps α)
    (t : TravellingSalesmanApproximation α)
    (hrand : t.randomPath = List.range t.points.length)
    (hn : 1 ≤ t.points.length) (hn2 : t.points.length ≤ 2)
    (hs : ops.ltb (ops.ofRat (-1)) (sentinel ops t) = true)
    (hM : ∀ a b, a < t.points.length → b < t.points.length → ∀ m,
      ops.ltb (t.distanceMatrix a b) m = true →
      ops.ltb (ops.ofRat (-1)) (t.distanceMatrix a b) = true) :
    solvePath ops t = List.range t.points.length := by
  have hcase : t.points.length = 1 ∨ t.points.length = 2 := by omega
  rcases hcase with h1 | h2
  · unfold solvePath
    rw [hrand, h1]
    rfl
  · have hmd : ops.ltb (ops.ofRat (-1))
        (minDistToPath ops t.distanceMatrix (sentinel ops t) [0] 1) = true := by
      refine minDist_gt_negOne ops t.distanceMatrix (sentinel ops t) t.points.length
        hs hM [0] ?_ 1 (by omega)
      intro p hp
      simp at hp
      omega
    have hsel : selectIndex ops t.distanceMatrix (sentinel ops t) [0]
        ([0, 1] : List ℕ) 1 2 = 1 := by
      show (if ops.ltb (ops.ofRat (-1))
            (minDistToPath ops t.distanceMatrix (sentinel ops t) [0] 1)
          then (minDistToPath ops t.distanceMatrix (sentinel ops t) [0] 1, 1)
          else (ops.ofRat (-1), 0)).2 = 1
      rw [if_pos hmd]
    unfold solvePath
    rw [hrand, h2]
    show insertPoint ops t.distanceMatrix (sentinel ops t) [0]
      ((swapList [0, 1]
        (selectIndex ops t.distanceMatrix (sentinel ops t) [0] [0, 1] 1 2) 1).getD 1 0) =
      [0, 1]
    rw [hsel]
    show (if ops.ltb (detourCost ops t.distanceMatrix 0 1 0) (sentinel ops t)
          then [0] ++ [1] else List.insertIdx 1 1 [0]) = [0, 1]
    by_cases hd : ops.ltb (detourCost ops t.distanceMatrix 0 1 0) (sentinel ops t)
    · rw [if_pos hd]
      rfl
    · rw [if_neg hd]
      rfl

/-- C4: for every input sequence of n ≥ 1 two-dimensional points
(duplicates permitted), `TravellingSalesmanApproximation.solve()` returns
a tour that is a permutation of the index range `[0, n)` — every input
index appears exactly once — and for n ≤ 2 the tour equals the input
order unchanged.  The number comparisons are abstract, constrained only by
`TsaSound`, which the IEEE-double arithmetic of the JS engine satisfies
(matrix entries are square roots, hence non-negative or NaN; the sentinel
is at least 1). -/
theorem c4_tour_bijection {α : Type} (ops : JsNumOps α) (pts : List (α × α))
    (center : Option (α × α)) (hn : 1 ≤ pts.length)
    (hsound : TsaSound ops (make ops pts center)) :
    ((solve ops (make ops pts center)).getD 0 []).Perm (List.range pts.length) ∧
    (pts.length ≤ 2 →
      (solve ops (make ops pts center)).getD 0 [] = List.range pts.length) := by
  have hlen := make_points_length ops pts center
  have hrand := make_randomPath ops pts center
  rcases hsound with ⟨hs, hM⟩
  constructor
  · have h := solvePath_perm ops (make ops pts center) hrand (by omega) hs hM
    rw [hlen] at h
    exact h
  · intro h2
    have h := solvePath_small ops (make ops pts center) hrand (by omega) (by omega) hs hM
    rw [hlen] at h
    exact h

/-- C4 witness: the theorem applied to three concrete points over exact
integer operations, with the soundness hypotheses discharged by
computation. -/
theorem c4_tour_bijection_witness :
    ((solve intOps (make intOps [((0 : ℤ), (0 : ℤ)), (5, 5)] none)).getD 0
      []).Perm (List.range 2) ∧
    (solve intOps (make intOps [((0 : ℤ), (0 : ℤ)), (5, 5)] none)).getD 0 [] =
      List.range 2 :=
  have h := c4_tour_bijection intOps [((0 : ℤ), (0 : ℤ)), (5, 5)] none
    (by decide)
    ⟨by decide, fun i j hi hj m hm => by
      simp only [make_points_length, List.length_cons, List.length_nil] at hi hj
      interval_cases i <;> interval_cases j <;> decide⟩
  ⟨h.1, h.2 (by decide)⟩

/- ------------------------------------------------------------------ -/
/- Evaluation of the demo scenario and claim C1.                       -/
/- ------------------------------------------------------------------ -/

/-- Concrete evaluation: with `maxCount = 2`, the demo index produces
three identifiers — the singleton leaf is counted first (1 < 2, no break),
then the aggregate is expanded with the full `maxCount` limit, and the
break fires only after the whole cluster was pushed. -/
theorem demoEval :
    getPointListData ratOps [("s", .clusterIdx demoIndex)] demoParams =
      some (.objRes ⟨[10, 21, 22], [(10, 10), (21, 99), (22, 99)]⟩) := by
  have e0 : getPointListData ratOps [("s", .clusterIdx demoIndex)] demoParams =
      some (.objRes ⟨(flattenGroups (planGroups demoIndex demoParams)).1,
                     (flattenGroups (planGroups demoIndex demoParams)).2⟩) := rfl
  have e1 : planGroups demoIndex demoParams =
      sortBy groupLe
        [setGroupDistance (effectiveCenter demoParams) ⟨10, (0, 0), [10], 0⟩,
         setGroupDistance (effectiveCenter demoParams) ⟨99, (1, 1), [21, 22], 0⟩] := rfl
  have hc : groupLe (setGroupDistance (effectiveCenter demoParams) ⟨99, (1, 1), [21, 22], 0⟩)
      (setGroupDistance (effectiveCenter demoParams) ⟨10, (0, 0), [10], 0⟩) = false := by
    simp only [groupLe, setGroupDistance, effectiveCenter, demoParams, getBboxArrCenter,
      calculateDistarnce, decide_eq_false_iff_not, not_le, Option.getD_none]
    norm_num
  have e2 : sortBy groupLe
        [setGroupDistance (effectiveCenter demoParams) ⟨10, (0, 0), [10], 0⟩,
         setGroupDistance (effectiveCenter demoParams) ⟨99, (1, 1), [21, 22], 0⟩] =
      if groupLe (setGroupDistance (effectiveCenter demoParams) ⟨99, (1, 1), [21, 22], 0⟩)
          (setGroupDistance (effectiveCenter demoParams) ⟨10, (0, 0), [10], 0⟩)
      then [setGroupDistance (effectiveCenter demoParams) ⟨99, (1, 1), [21, 22], 0⟩,
            setGroupDistance (effectiveCenter demoParams) ⟨10, (0, 0), [10], 0⟩]
      else [setGroupDistance (effectiveCenter demoParams) ⟨10, (0, 0), [10], 0⟩,
            setGroupDistance (effectiveCenter demoParams) ⟨99, (1, 1), [21, 22], 0⟩] := rfl
  rw [e0, e1, e2, hc]
  rfl

/-- C1 counterexample: with `maxCount = 2` the demo query returns three
identifiers, so `len(orderedIds) ≤ maxCount` fails — the aggregate
cluster is expanded with the full `maxCount` as the leaves limit (not the
remaining budget `maxCount - countSoFar`), and the loop breaks only after
the current cluster has been pushed in full. -/
theorem c1_counterexample :
    getPointListData ratOps [("s", .clusterIdx demoIndex)] demoParams =
      some (.objRes ⟨[10, 21, 22], [(10, 10), (21, 99), (22, 99)]⟩) ∧
    demoParams.maxCount = some 2 ∧
    ¬ ([10, 21, 22] : List ℕ).length ≤ 2 :=
  ⟨demoEval, rfl, by decide⟩

theorem jsBudget_pos (k : ℕ) (hk : 1 ≤ k) : jsBudget (some k) = some k := by
  cases k with
  | zero => omega
  | succ k => rfl

theorem optionGet_eq_map {β : Type} (gs : List β) (d : β) :
    ∀ (path : List ℕ), (∀ j ∈ path, j < gs.length) →
      optionGet gs path = some (path.map (fun j => gs.getD j d)) := by
  intro path
  induction path with
  | nil => intro _; rfl
  | cons j rest ih =>
    intro hmem
    have hj : j < gs.length := hmem j (List.mem_cons_self j rest)
    unfold optionGet
    rw [List.getElem?_eq_getElem hj, ih (fun x hx => hmem x (List.mem_cons_of_mem j hx))]
    rw [List.map_cons, List.getD_eq_getElem gs d hj]

theorem map_getD_range {β : Type} (gs : List β) (d : β) :
    (List.range gs.length).map (fun j => gs.getD j d) = gs := by
  apply List.ext_getElem
  · rw [List.length_map, List.length_range]
  · intro i h1 h2
    rw [List.getElem_map, List.getElem_range, List.getD_eq_getElem gs d h2]

theorem planTsa_points_length {α : Type} (ops : JsNumOps α) (sc : SuperclusterIndex)
    (p : PlanParams) :
    (planTsa ops sc p).points.length = (planGroups sc p).length := by
  unfold planTsa
  rw [make_points_length, List.length_map]

theorem planTsa_randomPath {α : Type} (ops : JsNumOps α) (sc : SuperclusterIndex)
    (p : PlanParams) :
    (planTsa ops sc p).randomPath = List.range (planTsa ops sc p).points.length := rfl

/-- When the tour branch succeeds in indexing the sorted groups, the
reordered group list is a permutation of the sorted group list. -/
theorem tsp_reordered_perm {α : Type} (ops : JsNumOps α) (sc : SuperclusterIndex)
    (p : PlanParams) (hsound : TsaSound ops (planTsa ops sc p))
    (reordered : List GroupData)
    (hopt : optionGet (planGroups sc p)
      ((solve ops (planTsa ops sc p)).getD 0 []) = some reordered) :
    reordered.Perm (planGroups sc p) := by
  by_cases hn : planGroups sc p = []
  · exfalso
    have hlen0 : (planTsa ops sc p).points.length = 0 := by
      rw [planTsa_points_length, hn]
      rfl
    have hpath : (solve ops (planTsa ops sc p)).getD 0 [] =
        [(planTsa ops sc p).randomPath.getD 0 0] := by
      show solvePath ops (planTsa ops sc p) = _
      unfold solvePath
      rw [hlen0]
      rfl
    rw [hpath, hn] at hopt
    simp [optionGet] at hopt
  · have hlen1 : 1 ≤ (planGroups sc p).length :=
      List.length_pos.2 hn
    rcases hsound with ⟨hs, hM⟩
    have hperm := solvePath_perm ops (planTsa ops sc p)
      (planTsa_randomPath ops sc p) (by rw [planTsa_points_length]; omega) hs hM
    rw [planTsa_points_length] at hperm
    have hmem : ∀ j ∈ (solve ops (planTsa ops sc p)).getD 0 [],
        j < (planGroups sc p).length := by
      intro j hj
      exact List.mem_range.1 (hperm.mem_iff.1 hj)
    rw [optionGet_eq_map (planGroups sc p) ⟨0, (0, 0), [], 0⟩ _ hmem] at hopt
    have hre : reordered = ((solve ops (planTsa ops sc p)).getD 0 []).map
        (fun j => (planGroups sc p).getD j ⟨0, (0, 0), [], 0⟩) := by
      exact (Option.some.injEq _ _ ▸ hopt).symm
    rw [hre]
    have := hperm.map (fun j => (planGroups sc p).getD j ⟨0, (0, 0), [], 0⟩)
    rw [map_getD_range (planGroups sc p) ⟨0, (0, 0), [], 0⟩] at this
    exact this

/-- The member identifiers of the plan groups are distinct whenever the
index's full expansion over the returned clusters is. -/
theorem planGroups_flat_nodup (sc : SuperclusterIndex) (p : PlanParams)
    (hnodup : ((sc.clustersIn p.bounds (effectiveZoom p)).flatMap
      (fun c => (clusterFeaturesOf sc (effectiveZoom p) none c).map Leaf.i)).Nodup) :
    ((planGroups sc p).flatMap GroupData.apartmentIds).Nodup := by
  have h1 := collectGroups_flat_sublist sc (effectiveZoom p) (jsBudget p.maxCount)
    (sc.clustersIn p.bounds (effectiveZoom p)) 0
  exact (planGroups_flat_perm sc p).symm.nodup (h1.nodup hnodup)

/-- C1 amended: with `maxCount = k ≥ 1`, each aggregate cluster is
expanded with the full `maxCount` as the leaves limit (not the remaining
budget), and the loop stops only after finishing the cluster that reaches
the running total; consequently the guarantee is
`len(orderedIds) ≤ 2·k − 1`, not `≤ k`. -/
theorem c1_maxcount_bound {α : Type} (ops : JsNumOps α)
    (indexes : List (String × GeoJSONIndex)) (p : PlanParams)
    (sc : SuperclusterIndex) (k : ℕ)
    (hsc : assocGet indexes p.source = some (.clusterIdx sc))
    (hk : p.maxCount = some k) (hk1 : 1 ≤ k)
    (hts : p.travellingSalesmanApprox = true → TsaSound ops (planTsa ops sc p))
    (r : PlanResult) (hres : getPointListData ops indexes p = some (.objRes r)) :
    r.apartmentIds.length ≤ 2 * k - 1 := by
  have hbud : jsBudget p.maxCount = some k := by rw [hk]; exact jsBudget_pos k hk1
  have hflat : ((planGroups sc p).flatMap GroupData.apartmentIds).length ≤ 2 * k - 1 := by
    have hp := (planGroups_flat_perm sc p).length_eq
    rw [hp, hbud]
    have := collectGroups_budget_le sc (effectiveZoom p) k hk1
      (sc.clustersIn p.bounds (effectiveZoom p)) 0 (by omega)
    omega
  simp only [getPointListData, hsc] at hres
  by_cases htsp : p.travellingSalesmanApprox
  · rw [if_pos htsp] at hres
    rcases hopt : optionGet (planGroups sc p)
        ((solve ops (planTsa ops sc p)).getD 0 []) with _ | reordered
    · rw [hopt] at hres
      simp at hres
    · rw [hopt] at hres
      simp only [Option.some.injEq, PlanCallback.objRes.injEq] at hres
      have hperm := tsp_reordered_perm ops sc p (hts htsp) reordered hopt
      have hids : r.apartmentIds = (flattenGroups reordered).1 := by
        rw [← hres]
      rw [hids, flattenGroups_fst]
      rw [(flatMap_perm hperm GroupData.apartmentIds).length_eq]
      exact hflat
  · rw [if_neg htsp] at hres
    simp only [Option.some.injEq, PlanCallback.objRes.injEq] at hres
    have hids : r.apartmentIds = (flattenGroups (planGroups sc p)).1 := by
      rw [← hres]
    rw [hids, flattenGroups_fst]
    exact hflat

/-- C1 witness: the amended bound applied to the demo query
(`maxCount = 2`, three identifiers returned, 3 ≤ 2·2 − 1). -/
theorem c1_maxcount_bound_witness :
    (⟨[10, 21, 22], [(10, 10), (21, 99), (22, 99)]⟩ : PlanResult).apartmentIds.length ≤
      2 * 2 - 1 :=
  c1_maxcount_bound ratOps [("s", .clusterIdx demoIndex)] demoParams demoIndex 2
    rfl rfl (by decide) (fun h => nomatch h) _ demoEval

/- ------------------------------------------------------------------ -/
/- C10: a zero maxCount means no cap.                                  -/
/- ------------------------------------------------------------------ -/

/-- C10: a `maxCount` of 0 (a falsy JS value) is treated as no cap at all
— the query behaves exactly as if `maxCount` were unset, and (on the
non-tour branch over a cluster index) the caller receives every identifier
the index reports in the bounding box rather than an empty list. -/
theorem c10_zero_maxcount_no_cap {α : Type} (ops : JsNumOps α)
    (indexes : List (String × GeoJSONIndex)) (b : Bbox) (z : ℚ) (src : String)
    (mnz mxz : ℤ) (c : Option (ℚ × ℚ)) (tsp : Bool) :
    getPointListData ops indexes ⟨b, z, some 0, src, mnz, mxz, c, tsp⟩ =
      getPointListData ops indexes ⟨b, z, none, src, mnz, mxz, c, tsp⟩ ∧
    (∀ sc, assocGet indexes src = some (.clusterIdx sc) →
      ∃ r, getPointListData ops indexes ⟨b, z, some 0, src, mnz, mxz, c, false⟩ =
          some (.objRes r) ∧
        r.apartmentIds.Perm
          ((sc.clustersIn b (effectiveZoom ⟨b, z, some 0, src, mnz, mxz, c, false⟩)).flatMap
            (fun cl => (clusterFeaturesOf sc
              (effectiveZoom ⟨b, z, some 0, src, mnz, mxz, c, false⟩) none cl).map
                Leaf.i))) := by
  constructor
  · rfl
  · intro sc hsc
    refine ⟨⟨(flattenGroups (planGroups sc ⟨b, z, some 0, src, mnz, mxz, c, false⟩)).1,
             (flattenGroups (planGroups sc ⟨b, z, some 0, src, mnz, mxz, c, false⟩)).2⟩,
           ?_, ?_⟩
    · simp only [getPointListData, hsc]
      rfl
    · simp only
      rw [flattenGroups_fst]
      have h1 := planGroups_flat_perm sc ⟨b, z, some 0, src, mnz, mxz, c, false⟩
      rw [show jsBudget (⟨b, z, some 0, src, mnz, mxz, c, false⟩ : PlanParams).maxCount =
        none from rfl] at h1
      rw [collectGroups_unbounded] at h1
      rw [List.flatMap_map] at h1
      exact h1

/-- C10 witness: the theorem at the demo index; with `maxCount = 0` the
query returns every identifier of the two demo clusters. -/
theorem c10_zero_maxcount_no_cap_witness :
    getPointListData ratOps [("s", .clusterIdx demoIndex)]
        ⟨⟨0, 0, 0, 0⟩, 0, some 0, "s", 0, 16, none, false⟩ =
      getPointListData ratOps [("s", .clusterIdx demoIndex)]
        ⟨⟨0, 0, 0, 0⟩, 0, none, "s", 0, 16, none, false⟩ ∧
    ∃ r, getPointListData ratOps [("s", .clusterIdx demoIndex)]
        ⟨⟨0, 0, 0, 0⟩, 0, some 0, "s", 0, 16, none, false⟩ =
        some (.objRes r) ∧
      r.apartmentIds.Perm
        ((demoIndex.clustersIn ⟨0, 0, 0, 0⟩
            (effectiveZoom ⟨⟨0, 0, 0, 0⟩, 0, some 0, "s", 0, 16, none, false⟩)).flatMap
          (fun cl => (clusterFeaturesOf demoIndex
            (effectiveZoom ⟨⟨0, 0, 0, 0⟩, 0, some 0, "s", 0, 16, none, false⟩)
            none cl).map Leaf.i)) :=
  ⟨(c10_zero_maxcount_no_cap ratOps [("s", .clusterIdx demoIndex)]
      ⟨0, 0, 0, 0⟩ 0 "s" 0 16 none false).1,
   (c10_zero_maxcount_no_cap ratOps [("s", .clusterIdx demoIndex)]
      ⟨0, 0, 0, 0⟩ 0 "s" 0 16 none false).2 demoIndex rfl⟩

/- ------------------------------------------------------------------ -/
/- C8: no duplicates, and the lookup maps ids to their groups.         -/
/- ------------------------------------------------------------------ -/

/-- C8: for every `getPointListData` result over a cluster index whose
full expansion has distinct identifiers (as supercluster's leaf partition
guarantees), `orderedIds` contains no duplicates and every surfaced
identifier is a key of `clusterLookup`, mapped to the cluster id of the
group it was drawn from in that query. -/
theorem c8_ids_nodup_lookup {α : Type} (ops : JsNumOps α)
    (indexes : List (String × GeoJSONIndex)) (p : PlanParams) (sc : SuperclusterIndex)
    (hsc : assocGet indexes p.source = some (.clusterIdx sc))
    (hnodup : ((sc.clustersIn p.bounds (effectiveZoom p)).flatMap
      (fun c => (clusterFeaturesOf sc (effectiveZoom p) none c).map Leaf.i)).Nodup)
    (hts : p.travellingSalesmanApprox = true → TsaSound ops (planTsa ops sc p))
    (r : PlanResult) (hres : getPointListData ops indexes p = some (.objRes r)) :
    r.apartmentIds.Nodup ∧
    ∀ id ∈ r.apartmentIds, ∃ g, g ∈ planGroups sc p ∧ id ∈ g.apartmentIds ∧
      assocGet r.clusterLookup id = some g.clusterId := by
  have hplan := planGroups_flat_nodup sc p hnodup
  simp only [getPointListData, hsc] at hres
  by_cases htsp : p.travellingSalesmanApprox
  · rw [if_pos htsp] at hres
    rcases hopt : optionGet (planGroups sc p)
        ((solve ops (planTsa ops sc p)).getD 0 []) with _ | reordered
    · rw [hopt] at hres
      simp at hres
    · rw [hopt] at hres
      simp only [Option.some.injEq, PlanCallback.objRes.injEq] at hres
      have hperm := tsp_reordered_perm ops sc p (hts htsp) reordered hopt
      have hrnodup : (reordered.flatMap GroupData.apartmentIds).Nodup :=
        ((flatMap_perm hperm GroupData.apartmentIds).symm).nodup hplan
      rcases flattenGroups_spec reordered hrnodup with ⟨hfst, hnd, hlook⟩
      subst hres
      refine ⟨hnd, ?_⟩
      intro id hid
      rw [show (⟨(flattenGroups reordered).1, (flattenGroups reordered).2⟩ :
        PlanResult).apartmentIds = (flattenGroups reordered).1 from rfl, hfst] at hid
      rcases List.mem_flatMap.1 hid with ⟨g, hg, hgid⟩
      exact ⟨g, hperm.mem_iff.1 hg, hgid, hlook g hg id hgid⟩
  · rw [if_neg htsp] at hres
    simp only [Option.some.injEq, PlanCallback.objRes.injEq] at hres
    rcases flattenGroups_spec (planGroups sc p) hplan with ⟨hfst, hnd, hlook⟩
    subst hres
    refine ⟨hnd, ?_⟩
    intro id hid
    rw [show (⟨(flattenGroups (planGroups sc p)).1, (flattenGroups (planGroups sc p)).2⟩ :
      PlanResult).apartmentIds = (flattenGroups (planGroups sc p)).1 from rfl, hfst] at hid
    rcases List.mem_flatMap.1 hid with ⟨g, hg, hgid⟩
    exact ⟨g, hg, hgid, hlook g hg id hgid⟩

/-- C8 witness: the theorem at the demo query, whose result was computed
in `demoEval`. -/
theorem c8_ids_nodup_lookup_witness :
    (⟨[10, 21, 22], [(10, 10), (21, 99), (22, 99)]⟩ : PlanResult).apartmentIds.Nodup ∧
    ∀ id ∈ (⟨[10, 21, 22], [(10, 10), (21, 99), (22, 99)]⟩ : PlanResult).apartmentIds,
      ∃ g, g ∈ planGroups demoIndex demoParams ∧ id ∈ g.apartmentIds ∧
        assocGet (⟨[10, 21, 22], [(10, 10), (21, 99), (22, 99)]⟩ :
          PlanResult).clusterLookup id = some g.clusterId :=
  c8_ids_nodup_lookup ratOps [("s", .clusterIdx demoIndex)] demoParams demoIndex
    rfl (by decide) (fun h => nomatch h) _ demoEval

end GeoWorker
